import Mathlib

/-!
Verification of the spin-wheel game engine of the SMInteractive repository.

The embedding below translates the service layer in
backend/src/services (SpinWheelService) together with the data model in
backend/src/models (spin_wheels.models.ts, user.models.ts,
transaction.models.ts) into Lean.  Coin amounts are modelled as exact
rationals, because the source computes the pool split with the JavaScript
division operator, which is not integer division.  Mongo ObjectIds are
modelled as naturals.  Dates and fields no claim touches are omitted.

Naming note: the service source refers to the user balance as
user.coinBalance in some places and user.coins in others; the IUser
interface and schema in user.models.ts declare a single balance field
named coins (min 0, default 1000), and the repository documentation and
auth controller expose that same field (auth.controller.ts serialises
coinBalance: user.coins).  Both spellings are therefore embedded as the
one balance field, here called coins.
-/

namespace SMInteractive

/-- Status enum from spin_wheels.models.ts (SpinWheelStatus). -/
inductive SpinWheelStatus
  | waiting
  | inProgress
  | completed
  | aborted
deriving DecidableEq, Repr

/-- Participant subdocument from spin_wheels.models.ts (IParticipant):
userId, name, entryFeePaid, isEliminated, eliminationOrder.
joinedAt and eliminatedAt (dates) are omitted. -/
structure Participant where
  userId : Nat
  name : String
  entryFeePaid : ℚ
  isEliminated : Bool
  eliminationOrder : Option Nat
deriving DecidableEq, Repr

/-- Round aggregate from spin_wheels.models.ts (ISpinWheel).  The
startedAt timestamp, set by startSpinWheel, is kept with instants
modelled as abstract naturals; fields no service operation under
verification touches (the other timestamps, autoStartTime,
eliminationInterval) are omitted. -/
structure SpinWheel where
  id : Nat
  adminId : Nat
  adminName : String
  status : SpinWheelStatus
  entryFee : ℚ
  participants : List Participant
  maxParticipants : Nat
  minParticipants : Nat
  winnerPool : ℚ
  adminPool : ℚ
  appPool : ℚ
  winnerPoolPercentage : ℚ
  adminPoolPercentage : ℚ
  appPoolPercentage : ℚ
  startedAt : Option Nat
  winnerId : Option Nat
  winnerName : Option String
  eliminationSequence : List Nat
  currentEliminationIndex : Nat
deriving DecidableEq, Repr

/-- Account from user.models.ts (IUser); coins is the balance field
(schema: type Number, default 1000, min 0). -/
structure User where
  id : Nat
  name : String
  coins : ℚ
deriving DecidableEq, Repr

/-- TransactionType enum from transaction.models.ts. -/
inductive TransactionType
  | entryFee
  | prizeWin
  | adminCommission
  | refund
  | appFee
deriving DecidableEq, Repr

/-- Transaction record from transaction.models.ts (ITransaction);
metadata and timestamps omitted. -/
structure Txn where
  userId : Nat
  name : String
  spinWheelId : Nat
  type : TransactionType
  amount : ℚ
  balanceBefore : ℚ
  balanceAfter : ℚ
deriving DecidableEq, Repr

/-- Error classes thrown by SpinWheelService (utils/apiResponse.ts):
NotFoundError, ConflictError, the insufficient-funds error
(ErrorCodeEnum INSUFFICIENT_COINS / documented code INSUFFICIENT_FUNDS)
and the generic SpinWheelError (SPIN_WHEEL_ERROR, HTTP 400).  The
message strings follow the service source. -/
inductive ServiceError
  | notFound (msg : String)
  | conflict (msg : String)
  | insufficientFunds (msg : String)
  | spinWheelError (msg : String)
deriving DecidableEq, Repr

/-- User.findById over the in-memory user collection. -/
def findUser (users : List User) (uid : Nat) : Option User :=
  users.find? (fun u => u.id = uid)

/-- user.save(): writes the document back by id. -/
def saveUser (users : List User) (u : User) : List User :=
  users.map (fun x => if x.id = u.id then u else x)

/-- SpinWheelService.joinSpinWheel (scheduler.service.ts).  Checks, in
source order: round found in waiting status, caller is not the admin,
caller not already joined, round not full, user exists, balance covers
the entry fee.  On success: pools increase by entryFee times the
percentage divided by 100 (JavaScript division, exact rational here),
the participant snapshot is appended, the fee is debited and an
entry-fee transaction is recorded.  The whole operation is one mongoose
transaction: any thrown error aborts it, which the Except encodes. -/
def joinSpinWheel (w : SpinWheel) (users : List User) (uid : Nat) (uname : String) :
    Except ServiceError (SpinWheel × List User × Txn) :=
  if w.status ≠ .waiting then
    .error (.notFound "Spin wheel not found or already started")
  else if w.adminId = uid then
    .error (.spinWheelError "Admin cannot join their own spin wheel")
  else if w.participants.any (fun p => p.userId = uid) then
    .error (.conflict "You have already joined this spin wheel")
  else if w.maxParticipants ≤ w.participants.length then
    .error (.spinWheelError "Spin wheel is full")
  else
    match findUser users uid with
    | none => .error (.notFound "User not found")
    | some user =>
      if user.coins < w.entryFee then
        .error (.insufficientFunds "Insufficient coins")
      else
        let winnerAmount := w.entryFee * w.winnerPoolPercentage / 100
        let adminAmount := w.entryFee * w.adminPoolPercentage / 100
        let appAmount := w.entryFee * w.appPoolPercentage / 100
        let w' : SpinWheel :=
          { w with
            winnerPool := w.winnerPool + winnerAmount
            adminPool := w.adminPool + adminAmount
            appPool := w.appPool + appAmount
            participants := w.participants ++
              [{ userId := uid, name := uname, entryFeePaid := w.entryFee,
                 isEliminated := false, eliminationOrder := none }] }
        let user' : User := { user with coins := user.coins - w.entryFee }
        let t : Txn :=
          { userId := uid, name := uname, spinWheelId := w.id,
            type := .entryFee, amount := -w.entryFee,
            balanceBefore := user.coins, balanceAfter := user'.coins }
        .ok (w', saveUser users user', t)

/-- One swap of the Fisher-Yates loop body:
[shuffled[i], shuffled[j]] = [shuffled[j], shuffled[i]]. -/
def listSwap {α : Type} (l : List α) (i j : Nat) : List α :=
  match l.get? i, l.get? j with
  | some a, some b => (l.set i b).set j a
  | _, _ => l

/-- The loop of SpinWheelService.shuffleArray: for i from the current
index down to 1, swap positions i and j where j is the PRNG draw
Math.floor(Math.random() * (i + 1)), a uniform value in [0, i].  The
draws are supplied by js; reduction modulo i + 1 expresses the range
the source guarantees for the draw at index i. -/
def shuffleIter {α : Type} (l : List α) (js : Nat → Nat) : Nat → List α
  | 0 => l
  | i + 1 => shuffleIter (listSwap l (i + 1) (js (i + 1) % (i + 2))) js i

/-- SpinWheelService.shuffleArray (Fisher-Yates), parameterised by the
sequence of PRNG draws. -/
def shuffleArray {α : Type} (l : List α) (js : Nat → Nat) : List α :=
  shuffleIter l js (l.length - 1)

/-- SpinWheelService.startSpinWheel: requires waiting status and at
least minParticipants participants; on success fixes the elimination
sequence as a shuffle of the participant ids, resets the elimination
index, moves to inProgress and records the current instant (the
new Date() of the source) as startedAt. -/
def startSpinWheel (w : SpinWheel) (js : Nat → Nat) (now : Nat) :
    Except ServiceError SpinWheel :=
  if w.status ≠ .waiting then
    .error (.spinWheelError "Spin wheel is not in waiting state")
  else if w.participants.length < w.minParticipants then
    .error (.spinWheelError "Minimum participants required")
  else
    .ok { w with
      eliminationSequence := shuffleArray (w.participants.map (·.userId)) js
      currentEliminationIndex := 0
      status := .inProgress
      startedAt := some now }

/-- The refund loop of SpinWheelService.abortSpinWheel: for each
participant, if the user document is found, credit entryFeePaid back
and append a refund transaction. -/
def refundParticipants (wid : Nat) (ps : List Participant)
    (users : List User) (txns : List Txn) : List User × List Txn :=
  match ps with
  | [] => (users, txns)
  | p :: rest =>
    match findUser users p.userId with
    | none => refundParticipants wid rest users txns
    | some u =>
      let u' : User := { u with coins := u.coins + p.entryFeePaid }
      let t : Txn :=
        { userId := p.userId, name := p.name, spinWheelId := wid,
          type := .refund, amount := p.entryFeePaid,
          balanceBefore := u.coins, balanceAfter := u'.coins }
      refundParticipants wid rest (saveUser users u') (txns ++ [t])

/-- SpinWheelService.abortSpinWheel: only waiting rounds can be
aborted; refunds every participant, zeroes the three pools and marks
the round aborted, in one transaction. -/
def abortSpinWheel (w : SpinWheel) (users : List User) :
    Except ServiceError (SpinWheel × List User × List Txn) :=
  if w.status ≠ .waiting then
    .error (.spinWheelError "Can only abort waiting spin wheels")
  else
    let r := refundParticipants w.id w.participants users []
    .ok ({ w with winnerPool := 0, adminPool := 0, appPool := 0,
                  status := .aborted }, r.1, r.2)

/-- SpinWheelService.completeSpinWheel: the winner is the first
non-eliminated participant; the winner is credited winnerPool with a
prize-win record, the admin is credited adminPool with an
admin-commission record, and an app-fee record for appPool is appended
with balanceBefore and balanceAfter both 0 (no account is touched for
it); the round becomes completed. -/
def completeSpinWheel (w : SpinWheel) (users : List User) :
    Except ServiceError (SpinWheel × List User × List Txn) :=
  match w.participants.find? (fun p => !p.isEliminated) with
  | none => .error (.spinWheelError "No winner found")
  | some winner =>
    let w' : SpinWheel :=
      { w with winnerId := some winner.userId, winnerName := some winner.name,
               status := .completed }
    let step1 : List User × List Txn :=
      match findUser users winner.userId with
      | none => (users, [])
      | some wu =>
        let wu' : User := { wu with coins := wu.coins + w.winnerPool }
        (saveUser users wu',
         [{ userId := winner.userId, name := winner.name, spinWheelId := w.id,
            type := .prizeWin, amount := w.winnerPool,
            balanceBefore := wu.coins, balanceAfter := wu'.coins }])
    let step2 : List User × List Txn :=
      match findUser step1.1 w.adminId with
      | none => (step1.1, [])
      | some au =>
        let au' : User := { au with coins := au.coins + w.adminPool }
        (saveUser step1.1 au',
         [{ userId := w.adminId, name := w.adminName, spinWheelId := w.id,
            type := .adminCommission, amount := w.adminPool,
            balanceBefore := au.coins, balanceAfter := au'.coins }])
    let appTxn : Txn :=
      { userId := w.adminId, name := "SYSTEM", spinWheelId := w.id,
        type := .appFee, amount := w.appPool,
        balanceBefore := 0, balanceAfter := 0 }
    .ok (w', step2.1, step1.2 ++ step2.2 ++ [appTxn])

/-- The participant update inside SpinWheelService.eliminateNext: the
source finds the first participant whose userId equals the drawn id and
mutates it; when no participant matches, nothing is marked. -/
def markEliminated (ps : List Participant) (uid : Nat) (pos : Nat) :
    List Participant :=
  match ps with
  | [] => []
  | p :: rest =>
    if p.userId = uid then
      { p with isEliminated := true, eliminationOrder := some pos } :: rest
    else
      p :: markEliminated rest uid pos

/-- Number of non-eliminated participants (the remainingCount
computation in eliminateNext). -/
def countRemaining (ps : List Participant) : Nat :=
  (ps.filter (fun p => !p.isEliminated)).length

/-- SpinWheelService.eliminateNext: requires inProgress status and an
elimination index below the sequence length; draws the id at the
current index, marks the matching participant (if any) eliminated with
position index + 1, increments the index unconditionally, then
completes the round when exactly one participant remains. -/
def eliminateNext (w : SpinWheel) (users : List User) :
    Except ServiceError (SpinWheel × List User × List Txn) :=
  if w.status ≠ .inProgress then
    .error (.spinWheelError "Spin wheel is not in progress")
  else if w.eliminationSequence.length ≤ w.currentEliminationIndex then
    .error (.spinWheelError "All eliminations completed")
  else
    let victim := w.eliminationSequence.getD w.currentEliminationIndex 0
    let w1 : SpinWheel :=
      { w with
        participants :=
          markEliminated w.participants victim (w.currentEliminationIndex + 1)
        currentEliminationIndex := w.currentEliminationIndex + 1 }
    if countRemaining w1.participants = 1 then
      completeSpinWheel w1 users
    else
      .ok (w1, users, [])

/-- SpinWheelService.canUserJoin: round must exist in waiting status,
caller must not be the admin, must not have joined already, and the
round must not be full.  The user balance is never consulted. -/
def canUserJoin (w? : Option SpinWheel) (uid : Nat) : Bool :=
  match w? with
  | none => false
  | some w =>
    if w.status ≠ .waiting then false
    else if w.adminId = uid then false
    else if w.participants.any (fun p => p.userId = uid) then false
    else if w.maxParticipants ≤ w.participants.length then false
    else true

/-- A round is active when its status is waiting or in progress (the
query in createSpinWheel and getActiveSpinWheel). -/
def isActive (w : SpinWheel) : Bool :=
  w.status = SpinWheelStatus.waiting || w.status = SpinWheelStatus.inProgress

/-- The persistent state the service operates on: the spin-wheel
collection, the user collection and the append-only transaction log. -/
structure SystemState where
  wheels : List SpinWheel
  users : List User
  txns : List Txn
deriving DecidableEq, Repr

/-- SpinWheel.findById over the collection. -/
def findWheel (s : SystemState) (wid : Nat) : Option SpinWheel :=
  s.wheels.find? (fun w => w.id = wid)

/-- spinWheel.save(): writes the document back by id. -/
def saveWheel (ws : List SpinWheel) (w : SpinWheel) : List SpinWheel :=
  ws.map (fun x => if x.id = w.id then w else x)

/-- SpinWheelService.createSpinWheel: fails with ConflictError when an
active round exists; validates that the configured percentages sum to
100; otherwise inserts a fresh waiting round with empty pools and
participants. -/
def createSpinWheel (s : SystemState) (newId adminId : Nat)
    (adminName : String) (entryFee : ℚ) (maxParticipants : Nat)
    (winnerPct adminPct appPct : ℚ) (minParticipants : Nat) :
    Except ServiceError SpinWheel :=
  if s.wheels.any isActive then
    .error (.conflict "There is already an active spin wheel")
  else if winnerPct + adminPct + appPct ≠ 100 then
    .error (.spinWheelError "Distribution percentages must sum to 100")
  else
    .ok { id := newId, adminId := adminId, adminName := adminName,
          status := .waiting, entryFee := entryFee, participants := [],
          maxParticipants := maxParticipants, minParticipants := minParticipants,
          winnerPool := 0, adminPool := 0, appPool := 0,
          winnerPoolPercentage := winnerPct, adminPoolPercentage := adminPct,
          appPoolPercentage := appPct, startedAt := none, winnerId := none, winnerName := none,
          eliminationSequence := [], currentEliminationIndex := 0 }

/-- One committed service operation on the persistent state.  Failed
operations abort their transaction and leave the state unchanged, so
only successful commits appear as steps.  Round ids are Mongo
ObjectIds, unique by construction, which the freshness premise of the
create step records. -/
inductive Step : SystemState → SystemState → Prop
  | create (s : SystemState) (newId adminId : Nat) (adminName : String)
      (entryFee : ℚ) (maxParticipants : Nat) (winnerPct adminPct appPct : ℚ)
      (minParticipants : Nat) (w : SpinWheel)
      (hfresh : ∀ x ∈ s.wheels, x.id ≠ newId)
      (hok : createSpinWheel s newId adminId adminName entryFee maxParticipants
        winnerPct adminPct appPct minParticipants = .ok w) :
      Step s { s with wheels := s.wheels ++ [w] }
  | join (s : SystemState) (wid uid : Nat) (uname : String)
      (w w' : SpinWheel) (users' : List User) (t : Txn)
      (hfind : findWheel s wid = some w)
      (hok : joinSpinWheel w s.users uid uname = .ok (w', users', t)) :
      Step s { wheels := saveWheel s.wheels w', users := users',
               txns := s.txns ++ [t] }
  | start (s : SystemState) (wid : Nat) (js : Nat → Nat) (now : Nat)
      (w w' : SpinWheel)
      (hfind : findWheel s wid = some w)
      (hok : startSpinWheel w js now = .ok w') :
      Step s { s with wheels := saveWheel s.wheels w' }
  | abort (s : SystemState) (wid : Nat) (w w' : SpinWheel)
      (users' : List User) (ts : List Txn)
      (hfind : findWheel s wid = some w)
      (hok : abortSpinWheel w s.users = .ok (w', users', ts)) :
      Step s { wheels := saveWheel s.wheels w', users := users',
               txns := s.txns ++ ts }
  | eliminate (s : SystemState) (wid : Nat) (w w' : SpinWheel)
      (users' : List User) (ts : List Txn)
      (hfind : findWheel s wid = some w)
      (hok : eliminateNext w s.users = .ok (w', users', ts)) :
      Step s { wheels := saveWheel s.wheels w', users := users',
               txns := s.txns ++ ts }

/-- States reachable from a round-free initial state by committed
service operations. -/
def Reachable (s s' : SystemState) : Prop :=
  Relation.ReflTransGen Step s s'

/-- An initial state: any user collection, no rounds, no transactions. -/
def initState (users : List User) : SystemState :=
  { wheels := [], users := users, txns := [] }

/-! Helper lemmas about the list primitives of the embedding. -/

/-- Consing an element read from position k and writing another element
there is a permutation of consing the written element. -/
theorem cons_set_perm {α : Type} :
    ∀ (xs : List α) (k : Nat) (a b : α), xs.get? k = some b →
      (b :: xs.set k a).Perm (a :: xs) := by
  intro xs
  induction xs with
  | nil => intro k a b h; simp at h
  | cons x rest ih =>
    intro k a b h
    cases k with
    | zero =>
      simp only [List.get?] at h
      have hb : x = b := by injection h
      rw [← hb]
      exact List.Perm.swap a x rest
    | succ k =>
      simp only [List.get?] at h
      exact (List.Perm.swap x b (rest.set k a)).trans
        (((ih k a b h).cons x).trans (List.Perm.swap a x rest))

/-- A double set that exchanges the elements at two read positions is a
permutation. -/
theorem set_set_perm {α : Type} :
    ∀ (l : List α) (i j : Nat) (a b : α),
      l.get? i = some a → l.get? j = some b →
      ((l.set i b).set j a).Perm l := by
  intro l
  induction l with
  | nil => intro i j a b hi _; simp at hi
  | cons x rest ih =>
    intro i j a b hi hj
    cases i with
    | zero =>
      simp only [List.get?] at hi
      have ha : x = a := by injection hi
      cases j with
      | zero =>
        simp only [List.get?] at hj
        have hb : x = b := by injection hj
        rw [← ha, ← hb]
        simp
      | succ k =>
        simp only [List.get?] at hj
        rw [← ha]
        simpa using cons_set_perm rest k x b hj
    | succ m =>
      simp only [List.get?] at hi
      cases j with
      | zero =>
        simp only [List.get?] at hj
        have hb : x = b := by injection hj
        rw [← hb]
        simpa using cons_set_perm rest m x a hi
      | succ k =>
        simp only [List.get?] at hj
        simpa using (ih m k a b hi hj).cons x

/-- listSwap is a permutation. -/
theorem listSwap_perm {α : Type} (l : List α) (i j : Nat) :
    (listSwap l i j).Perm l := by
  unfold listSwap
  split
  · next a b hi hj => exact set_set_perm l i j a b hi hj
  · exact List.Perm.refl l

/-- Every run of the Fisher-Yates loop is a permutation. -/
theorem shuffleIter_perm {α : Type} (js : Nat → Nat) :
    ∀ (i : Nat) (l : List α), (shuffleIter l js i).Perm l := by
  intro i
  induction i with
  | zero => intro l; exact List.Perm.refl l
  | succ i ih =>
    intro l
    exact (ih (listSwap l (i + 1) (js (i + 1) % (i + 2)))).trans
      (listSwap_perm l (i + 1) (js (i + 1) % (i + 2)))

/-- shuffleArray returns a permutation of its input for every sequence
of PRNG draws. -/
theorem shuffleArray_perm {α : Type} (l : List α) (js : Nat → Nat) :
    (shuffleArray l js).Perm l :=
  shuffleIter_perm js (l.length - 1) l

/-- Unfolding lemma for findUser on a cons cell. -/
theorem findUser_cons (x : User) (l : List User) (uid : Nat) :
    findUser (x :: l) uid = if x.id = uid then some x else findUser l uid := by
  by_cases h : x.id = uid <;> simp [findUser, List.find?, h]

/-- Unfolding lemma for saveUser on a cons cell. -/
theorem saveUser_cons (x : User) (l : List User) (v : User) :
    saveUser (x :: l) v = (if x.id = v.id then v else x) :: saveUser l v :=
  rfl

/-- A user returned by findUser carries the looked-up id. -/
theorem findUser_id {users : List User} {uid : Nat} {u : User}
    (h : findUser users uid = some u) : u.id = uid := by
  have := List.find?_some h
  simpa using this

/-- Saving a user document with the looked-up id makes findUser return
exactly that document. -/
theorem findUser_saveUser_self {users : List User} {uid : Nat} {u : User}
    (v : User) (h : findUser users uid = some u) (hid : v.id = uid) :
    findUser (saveUser users v) uid = some v := by
  induction users with
  | nil => simp [findUser] at h
  | cons x rest ih =>
    rw [saveUser_cons]
    by_cases hx : x.id = uid
    · have hxv : x.id = v.id := by rw [hid]; exact hx
      rw [if_pos hxv, findUser_cons, if_pos hid]
    · have hxv : ¬ x.id = v.id := by rw [hid]; exact hx
      rw [findUser_cons, if_neg hx] at h
      rw [if_neg hxv, findUser_cons, if_neg hx]
      exact ih h

/-- Saving a user document does not change lookups of other ids. -/
theorem findUser_saveUser_ne (users : List User) {uid : Nat}
    (v : User) (hid : v.id ≠ uid) :
    findUser (saveUser users v) uid = findUser users uid := by
  induction users with
  | nil => rfl
  | cons x rest ih =>
    rw [saveUser_cons, findUser_cons, findUser_cons]
    by_cases hxv : x.id = v.id
    · have hx : ¬ x.id = uid := by rw [hxv]; exact hid
      rw [if_pos hxv, if_neg hid, if_neg hx]
      exact ih
    · rw [if_neg hxv]
      by_cases hx : x.id = uid
      · rw [if_pos hx, if_pos hx]
      · rw [if_neg hx, if_neg hx]
        exact ih

/-- Saving a user document preserves which ids are present. -/
theorem findUser_saveUser_isSome (users : List User) (uid : Nat) (v : User) :
    (findUser (saveUser users v) uid).isSome = (findUser users uid).isSome := by
  by_cases hid : v.id = uid
  · cases h : findUser users uid with
    | none =>
      induction users with
      | nil => rfl
      | cons x rest ih =>
        rw [findUser_cons] at h
        by_cases hx : x.id = uid
        · rw [if_pos hx] at h; cases h
        · rw [if_neg hx] at h
          have hxv : ¬ x.id = v.id := by rw [hid]; exact hx
          rw [saveUser_cons, if_neg hxv, findUser_cons, if_neg hx]
          exact ih h
    | some u => simp [findUser_saveUser_self v h hid, h]
  · rw [findUser_saveUser_ne users v hid]

/-- Transactions already recorded survive the refund loop. -/
theorem refund_txns_mono {wid : Nat} {t : Txn} :
    ∀ (ps : List Participant) (users : List User) (txns : List Txn),
      t ∈ txns → t ∈ (refundParticipants wid ps users txns).2 := by
  intro ps
  induction ps with
  | nil => intro users txns h; exact h
  | cons q rest ih =>
    intro users txns h
    unfold refundParticipants
    split
    · exact ih users txns h
    · exact ih _ _ (List.mem_append_left _ h)

/-- Every participant whose user document exists gets a refund record
from the refund loop. -/
theorem refund_txn_exists {wid : Nat} :
    ∀ (ps : List Participant) (users : List User) (txns : List Txn)
      (p : Participant), p ∈ ps →
      (∀ q ∈ ps, (findUser users q.userId).isSome) →
      ∃ t ∈ (refundParticipants wid ps users txns).2,
        t.userId = p.userId ∧ t.type = .refund ∧
        t.amount = p.entryFeePaid ∧ t.spinWheelId = wid := by
  intro ps
  induction ps with
  | nil => intro users txns p hp _; cases hp
  | cons q rest ih =>
    intro users txns p hp hsome
    have hq : (findUser users q.userId).isSome := hsome q (List.mem_cons_self q rest)
    cases hf : findUser users q.userId with
    | none => rw [hf] at hq; cases hq
    | some u =>
      have hstep : refundParticipants wid (q :: rest) users txns =
          refundParticipants wid rest
            (saveUser users { u with coins := u.coins + q.entryFeePaid })
            (txns ++ [{ userId := q.userId, name := q.name,
                        spinWheelId := wid,
                        type := .refund, amount := q.entryFeePaid,
                        balanceBefore := u.coins,
                        balanceAfter := u.coins + q.entryFeePaid }]) := by
        simp only [refundParticipants, hf]
      rw [hstep]
      rcases List.mem_cons.mp hp with rfl | hp'
      · refine ⟨_, refund_txns_mono rest _ _
          (List.mem_append_right _ (List.mem_singleton_self _)), rfl, rfl, rfl, rfl⟩
      · refine ih _ _ p hp' ?_
        intro q' hq'
        rw [findUser_saveUser_isSome]
        exact hsome q' (List.mem_cons_of_mem q hq')

/-- The refund loop does not change users outside the refunded
participant set. -/
theorem refund_findUser_not_mem {wid : Nat} {uid : Nat} :
    ∀ (ps : List Participant) (users : List User) (txns : List Txn),
      (∀ p ∈ ps, p.userId ≠ uid) →
      findUser (refundParticipants wid ps users txns).1 uid =
        findUser users uid := by
  intro ps
  induction ps with
  | nil => intro users txns _; rfl
  | cons q rest ih =>
    intro users txns hne
    cases hf : findUser users q.userId with
    | none =>
      have hstep : refundParticipants wid (q :: rest) users txns =
          refundParticipants wid rest users txns := by
        simp only [refundParticipants, hf]
      rw [hstep]
      exact ih users txns (fun p hp => hne p (List.mem_cons_of_mem q hp))
    | some u =>
      have hstep : refundParticipants wid (q :: rest) users txns =
          refundParticipants wid rest
            (saveUser users { u with coins := u.coins + q.entryFeePaid })
            (txns ++ [{ userId := q.userId, name := q.name,
                        spinWheelId := wid,
                        type := .refund, amount := q.entryFeePaid,
                        balanceBefore := u.coins,
                        balanceAfter := u.coins + q.entryFeePaid }]) := by
        simp only [refundParticipants, hf]
      rw [hstep, ih _ _ (fun p hp => hne p (List.mem_cons_of_mem q hp))]
      exact findUser_saveUser_ne users _
        (by simpa [findUser_id hf] using hne q (List.mem_cons_self q rest))

/-- When participant ids are distinct, the refund loop credits each
participant exactly its recorded entry fee. -/
theorem refund_findUser_mem {wid : Nat} :
    ∀ (ps : List Participant) (users : List User) (txns : List Txn)
      (p : Participant) (u : User),
      (ps.map (fun q => q.userId)).Nodup → p ∈ ps →
      findUser users p.userId = some u →
      findUser (refundParticipants wid ps users txns).1 p.userId =
        some { u with coins := u.coins + p.entryFeePaid } := by
  intro ps
  induction ps with
  | nil => intro users txns p u _ hp _; cases hp
  | cons q rest ih =>
    intro users txns p u hnodup hp hu
    rcases List.mem_cons.mp hp with rfl | hp'
    · cases hf : findUser users p.userId with
      | none => rw [hf] at hu; cases hu
      | some v =>
        rw [hf] at hu
        have huv : v = u := by injection hu
        subst huv
        have hstep : refundParticipants wid (p :: rest) users txns =
            refundParticipants wid rest
              (saveUser users { v with coins := v.coins + p.entryFeePaid })
              (txns ++ [{ userId := p.userId, name := p.name,
                          spinWheelId := wid,
                          type := .refund, amount := p.entryFeePaid,
                          balanceBefore := v.coins,
                          balanceAfter := v.coins + p.entryFeePaid }]) := by
          simp only [refundParticipants, hf]
        rw [hstep]
        have hnot : ∀ r ∈ rest, r.userId ≠ p.userId := by
          intro r hr he
          have : p.userId ∈ rest.map (fun q => q.userId) :=
            List.mem_map.mpr ⟨r, hr, he⟩
          exact (List.nodup_cons.mp hnodup).1 this
        rw [refund_findUser_not_mem rest _ _ hnot]
        exact findUser_saveUser_self
          { v with coins := v.coins + p.entryFeePaid } hf
          (by have h9 := findUser_id hf; exact h9)
    · have hqp : q.userId ≠ p.userId := by
        intro he
        exact (List.nodup_cons.mp hnodup).1
          (List.mem_map.mpr ⟨p, hp', he.symm⟩)
      cases hf : findUser users q.userId with
      | none =>
        have hstep : refundParticipants wid (q :: rest) users txns =
            refundParticipants wid rest users txns := by
          simp only [refundParticipants, hf]
        rw [hstep]
        exact ih _ _ p u (List.nodup_cons.mp hnodup).2 hp' hu
      | some v =>
        have hstep : refundParticipants wid (q :: rest) users txns =
            refundParticipants wid rest
              (saveUser users { v with coins := v.coins + q.entryFeePaid })
              (txns ++ [{ userId := q.userId, name := q.name,
                          spinWheelId := wid,
                          type := .refund, amount := q.entryFeePaid,
                          balanceBefore := v.coins,
                          balanceAfter := v.coins + q.entryFeePaid }]) := by
          simp only [refundParticipants, hf]
        rw [hstep]
        refine ih _ _ p u (List.nodup_cons.mp hnodup).2 hp' ?_
        rw [findUser_saveUser_ne users _ (by simpa [findUser_id hf] using hqp)]
        exact hu

/-- A wheel returned by findWheel is in the collection. -/
theorem findWheel_mem {s : SystemState} {wid : Nat} {w : SpinWheel}
    (h : findWheel s wid = some w) : w ∈ s.wheels :=
  List.mem_of_find?_eq_some h

/-- A wheel returned by findWheel carries the looked-up id. -/
theorem findWheel_id {s : SystemState} {wid : Nat} {w : SpinWheel}
    (h : findWheel s wid = some w) : w.id = wid := by
  have := List.find?_some h
  simpa using this

/-- Saving a wheel document never changes the stored ids. -/
theorem saveWheel_map_id (ws : List SpinWheel) (v : SpinWheel) :
    (saveWheel ws v).map (fun w => w.id) = ws.map (fun w => w.id) := by
  induction ws with
  | nil => rfl
  | cons x rest ih =>
    by_cases hx : x.id = v.id
    · simp [saveWheel, List.map_cons, hx] at ih ⊢
      exact ih
    · simp [saveWheel, List.map_cons, hx] at ih ⊢
      exact ih

/-- Members of a saved collection are old members or the written
document. -/
theorem mem_saveWheel {ws : List SpinWheel} {v x : SpinWheel}
    (h : x ∈ saveWheel ws v) : x ∈ ws ∨ x = v := by
  rcases List.mem_map.mp h with ⟨y, hy, hxy⟩
  by_cases hid : y.id = v.id
  · right; rw [← hxy]; simp [hid]
  · left
    have : (if y.id = v.id then v else y) = y := if_neg hid
    rw [← hxy, this]
    exact hy

/-- Saving a document whose id is absent changes nothing. -/
theorem saveWheel_eq_of_not_mem {ws : List SpinWheel} {v : SpinWheel}
    (h : ∀ y ∈ ws, y.id ≠ v.id) : saveWheel ws v = ws := by
  induction ws with
  | nil => rfl
  | cons x rest ih =>
    have hx : x.id ≠ v.id := h x (List.mem_cons_self x rest)
    simp only [saveWheel, List.map_cons, if_neg hx]
    have := ih (fun y hy => h y (List.mem_cons_of_mem x hy))
    simpa [saveWheel] using this

/-- Replacing one document (by a unique id) exchanges exactly its own
contribution to a countP. -/
theorem countP_saveWheel (p : SpinWheel → Bool) :
    ∀ (ws : List SpinWheel) (w v : SpinWheel),
      (ws.map (fun x => x.id)).Nodup → w ∈ ws → v.id = w.id →
      (saveWheel ws v).countP p + (if p w then 1 else 0) =
        ws.countP p + (if p v then 1 else 0) := by
  intro ws
  induction ws with
  | nil => intro w v _ hw _; cases hw
  | cons x rest ih =>
    intro w v hnodup hw hid
    have hnd := List.nodup_cons.mp hnodup
    rcases List.mem_cons.mp hw with rfl | hw'
    · have hhead : w.id ∉ rest.map (fun y => y.id) := by simpa using hnd.1
      have hxv : w.id = v.id := hid.symm
      have hrest : ∀ y ∈ rest, y.id ≠ v.id := by
        intro y hy he
        exact hhead (List.mem_map.mpr ⟨y, hy, he.trans hid⟩)
      simp only [saveWheel, List.map_cons, if_pos hxv]
      have hsw : List.map (fun y => if y.id = v.id then v else y) rest = rest :=
        saveWheel_eq_of_not_mem hrest
      rw [hsw, List.countP_cons, List.countP_cons]
      by_cases hpw : p w <;> by_cases hpv : p v <;> simp [hpw, hpv]
    · have hhead : x.id ∉ rest.map (fun y => y.id) := by simpa using hnd.1
      have hxw : x.id ≠ w.id := by
        intro he
        exact hhead (List.mem_map.mpr ⟨w, hw', he.symm⟩)
      have hxv : ¬ x.id = v.id := by rw [hid]; exact hxw
      simp only [saveWheel, List.map_cons, if_neg hxv]
      rw [List.countP_cons, List.countP_cons]
      have hrec := ih w v (by simpa using hnd.2) hw' hid
      simp only [saveWheel] at hrec
      omega

/-- A filter that returns a singleton pins down find?. -/
theorem find?_eq_of_filter_eq_singleton {α : Type} (p : α → Bool) :
    ∀ (l : List α) (a : α), l.filter p = [a] → l.find? p = some a := by
  intro l
  induction l with
  | nil => intro a h; simp at h
  | cons x rest ih =>
    intro a h
    by_cases hx : p x
    · rw [List.filter_cons_of_pos hx] at h
      have hxa : x = a := by injection h
      rw [List.find?_cons_of_pos _ hx, hxa]
    · rw [List.filter_cons_of_neg hx] at h
      rw [List.find?_cons_of_neg _ hx]
      exact ih a h

/-- Marking a participant eliminated does not change the stored ids. -/
theorem markEliminated_map_userId (uid pos : Nat) :
    ∀ ps : List Participant,
      (markEliminated ps uid pos).map (fun p => p.userId) =
        ps.map (fun p => p.userId) := by
  intro ps
  induction ps with
  | nil => rfl
  | cons p rest ih =>
    by_cases hp : p.userId = uid
    · simp [markEliminated, hp]
    · simp [markEliminated, hp, ih]

/-- Shape of a successful join: preconditions in source order and the
exact updated round, user collection and transaction. -/
theorem joinSpinWheel_ok_iff (w : SpinWheel) (users : List User) (uid : Nat)
    (uname : String) (r : SpinWheel × List User × Txn) :
    joinSpinWheel w users uid uname = .ok r ↔
      w.status = .waiting ∧ ¬ w.adminId = uid ∧
      ¬ w.participants.any (fun p => p.userId = uid) = true ∧
      ¬ w.maxParticipants ≤ w.participants.length ∧
      ∃ user, findUser users uid = some user ∧ ¬ user.coins < w.entryFee ∧
        r = ({ w with
               winnerPool := w.winnerPool + w.entryFee * w.winnerPoolPercentage / 100
               adminPool := w.adminPool + w.entryFee * w.adminPoolPercentage / 100
               appPool := w.appPool + w.entryFee * w.appPoolPercentage / 100
               participants := w.participants ++
                 [{ userId := uid, name := uname, entryFeePaid := w.entryFee,
                    isEliminated := false, eliminationOrder := none }] },
             saveUser users { user with coins := user.coins - w.entryFee },
             { userId := uid, name := uname, spinWheelId := w.id,
               type := .entryFee, amount := -w.entryFee,
               balanceBefore := user.coins,
               balanceAfter := user.coins - w.entryFee }) := by
  by_cases h1 : w.status = .waiting
  · by_cases h2 : w.adminId = uid
    · simp [joinSpinWheel, h1, h2]
    · cases h3 : w.participants.any (fun p => p.userId = uid) with
      | true => simp [joinSpinWheel, h1, h2, h3]
      | false =>
        by_cases h4 : w.maxParticipants ≤ w.participants.length
        · simp [joinSpinWheel, h1, h2, h3, h4]
        · cases hf : findUser users uid with
          | none => simp [joinSpinWheel, h1, h2, h3, h4, hf]
          | some user =>
            by_cases h5 : user.coins < w.entryFee
            · simp [joinSpinWheel, h1, h2, h3, h4, hf, h5]
            · have hred : joinSpinWheel w users uid uname = .ok
                  ({ w with
                     winnerPool :=
                       w.winnerPool + w.entryFee * w.winnerPoolPercentage / 100
                     adminPool :=
                       w.adminPool + w.entryFee * w.adminPoolPercentage / 100
                     appPool :=
                       w.appPool + w.entryFee * w.appPoolPercentage / 100
                     participants := w.participants ++
                       [{ userId := uid, name := uname,
                          entryFeePaid := w.entryFee,
                          isEliminated := false, eliminationOrder := none }] },
                   saveUser users { user with coins := user.coins - w.entryFee },
                   { userId := uid, name := uname, spinWheelId := w.id,
                     type := .entryFee, amount := -w.entryFee,
                     balanceBefore := user.coins,
                     balanceAfter := user.coins - w.entryFee }) := by
                simp [joinSpinWheel, h1, h2, h3, h4, hf, h5]
              rw [hred]
              constructor
              · intro h
                refine ⟨h1, h2, by simp [h3], h4, user, rfl, h5, ?_⟩
                simp only [Except.ok.injEq] at h
                exact h.symm
              · rintro ⟨-, -, -, -, user2, hu2, -, hr⟩
                have huu : user2 = user := by
                  injection hu2 with hu3
                  exact hu3.symm
                subst huu
                rw [hr]
  · simp [joinSpinWheel, h1]

/-- Facts about a successful join needed for the state invariants. -/
theorem joinSpinWheel_ok {w : SpinWheel} {users : List User} {uid : Nat}
    {uname : String} {w' : SpinWheel} {users' : List User} {t : Txn}
    (h : joinSpinWheel w users uid uname = .ok (w', users', t)) :
    w.status = .waiting ∧ w'.status = .waiting ∧ w'.id = w.id := by
  rcases (joinSpinWheel_ok_iff w users uid uname (w', users', t)).mp h with
    ⟨h1, -, -, -, user, -, -, hr⟩
  have hw' : w' = { w with
      winnerPool := w.winnerPool + w.entryFee * w.winnerPoolPercentage / 100
      adminPool := w.adminPool + w.entryFee * w.adminPoolPercentage / 100
      appPool := w.appPool + w.entryFee * w.appPoolPercentage / 100
      participants := w.participants ++
        [{ userId := uid, name := uname, entryFeePaid := w.entryFee,
           isEliminated := false, eliminationOrder := none }] } := by
    injection hr with hr1 hr2
  subst hw'
  exact ⟨h1, h1, rfl⟩

/-- Shape of a successful start. -/
theorem startSpinWheel_ok_iff (w : SpinWheel) (js : Nat → Nat) (now : Nat)
    (w' : SpinWheel) :
    startSpinWheel w js now = .ok w' ↔
      w.status = .waiting ∧ ¬ w.participants.length < w.minParticipants ∧
      w' = { w with
        eliminationSequence := shuffleArray (w.participants.map (·.userId)) js
        currentEliminationIndex := 0
        status := .inProgress
        startedAt := some now } := by
  by_cases h1 : w.status = .waiting
  · by_cases h2 : w.participants.length < w.minParticipants
    · simp [startSpinWheel, h1, h2]
    · simp [startSpinWheel, h1, h2, eq_comm]
  · simp [startSpinWheel, h1]

/-- Shape of a successful abort. -/
theorem abortSpinWheel_ok_iff (w : SpinWheel) (users : List User)
    (r : SpinWheel × List User × List Txn) :
    abortSpinWheel w users = .ok r ↔
      w.status = .waiting ∧
      r = ({ w with winnerPool := 0, adminPool := 0, appPool := 0,
                    status := .aborted },
           (refundParticipants w.id w.participants users []).1,
           (refundParticipants w.id w.participants users []).2) := by
  by_cases h1 : w.status = .waiting
  · simp [abortSpinWheel, h1, eq_comm]
  · simp [abortSpinWheel, h1]

/-- Shape of a successful completion: the winner is the first
non-eliminated participant, the round keeps its participants, sequence
and index, and becomes completed with winnerId pointing at the winner. -/
theorem completeSpinWheel_ok {w : SpinWheel} {users : List User}
    {w' : SpinWheel} {users' : List User} {ts : List Txn}
    (h : completeSpinWheel w users = .ok (w', users', ts)) :
    ∃ p, w.participants.find? (fun q => !q.isEliminated) = some p ∧
      w' = { w with winnerId := some p.userId, winnerName := some p.name,
                    status := .completed } := by
  cases hf : w.participants.find? (fun q => !q.isEliminated) with
  | none => simp [completeSpinWheel, hf] at h
  | some p =>
    refine ⟨p, rfl, ?_⟩
    simp only [completeSpinWheel, hf, Except.ok.injEq, Prod.mk.injEq] at h
    exact h.1.symm

/-- Shape of a successful elimination step: the index advances by one,
the participant ids and the sequence are unchanged, and the round
either stays in progress or is completed with a unique survivor
recorded as winner. -/
theorem eliminateNext_ok {w : SpinWheel} {users : List User}
    {w' : SpinWheel} {users' : List User} {ts : List Txn}
    (h : eliminateNext w users = .ok (w', users', ts)) :
    w.status = .inProgress ∧ w'.id = w.id ∧
    w'.eliminationSequence = w.eliminationSequence ∧
    w'.participants.map (fun p => p.userId) =
      w.participants.map (fun p => p.userId) ∧
    w'.currentEliminationIndex = w.currentEliminationIndex + 1 ∧
    ((w'.status = .inProgress ∧ countRemaining w'.participants ≠ 1) ∨
      (w'.status = .completed ∧
        ∃ p, w'.participants.filter (fun q => !q.isEliminated) = [p] ∧
          w'.winnerId = some p.userId)) := by
  by_cases h1 : w.status = .inProgress
  · by_cases h2 : w.eliminationSequence.length ≤ w.currentEliminationIndex
    · simp [eliminateNext, h1, h2] at h
    · have hstep : eliminateNext w users =
          (if countRemaining (markEliminated w.participants
              (w.eliminationSequence.getD w.currentEliminationIndex 0)
              (w.currentEliminationIndex + 1)) = 1 then
            completeSpinWheel
              { w with
                participants := markEliminated w.participants
                  (w.eliminationSequence.getD w.currentEliminationIndex 0)
                  (w.currentEliminationIndex + 1)
                currentEliminationIndex := w.currentEliminationIndex + 1 }
              users
          else
            .ok ({ w with
              participants := markEliminated w.participants
                (w.eliminationSequence.getD w.currentEliminationIndex 0)
                (w.currentEliminationIndex + 1)
              currentEliminationIndex := w.currentEliminationIndex + 1 },
              users, [])) := by
        simp [eliminateNext, h1, h2]
      rw [hstep] at h
      by_cases h3 : countRemaining (markEliminated w.participants
          (w.eliminationSequence.getD w.currentEliminationIndex 0)
          (w.currentEliminationIndex + 1)) = 1
      · rw [if_pos h3] at h
        rcases completeSpinWheel_ok h with ⟨p, hfind, hw'⟩
        subst hw'
        refine ⟨h1, by rfl, by rfl, by simp [markEliminated_map_userId],
          by rfl, ?_⟩
        right
        refine ⟨by rfl, p, ?_, by rfl⟩
        have hlen : (List.filter (fun q => !q.isEliminated)
            (markEliminated w.participants
              (w.eliminationSequence.getD w.currentEliminationIndex 0)
              (w.currentEliminationIndex + 1))).length = 1 := h3
        rcases List.length_eq_one.mp hlen with ⟨a, ha⟩
        have := find?_eq_of_filter_eq_singleton _ _ _ ha
        simp only [this] at hfind
        have hap : a = p := by injection hfind
        subst hap
        exact ha
      · rw [if_neg h3] at h
        simp only [Except.ok.injEq, Prod.mk.injEq] at h
        rcases h with ⟨hw', -, -⟩
        subst hw'
        exact ⟨h1, by rfl, by rfl, by simp [markEliminated_map_userId],
          by rfl, Or.inl ⟨h1, h3⟩⟩
  · simp [eliminateNext, h1] at h

/-- Shape of a successful round creation. -/
theorem createSpinWheel_ok {s : SystemState} {newId adminId : Nat}
    {adminName : String} {entryFee : ℚ} {maxParticipants : Nat}
    {winnerPct adminPct appPct : ℚ} {minParticipants : Nat} {w : SpinWheel}
    (h : createSpinWheel s newId adminId adminName entryFee maxParticipants
      winnerPct adminPct appPct minParticipants = .ok w) :
    s.wheels.any isActive = false ∧ w.status = .waiting ∧ w.id = newId := by
  by_cases h1 : s.wheels.any isActive
  · simp [createSpinWheel, h1] at h
  · by_cases h2 : winnerPct + adminPct + appPct = 100
    · have hred : createSpinWheel s newId adminId adminName entryFee
          maxParticipants winnerPct adminPct appPct minParticipants = .ok
          { id := newId, adminId := adminId, adminName := adminName,
            status := .waiting, entryFee := entryFee, participants := [],
            maxParticipants := maxParticipants,
            minParticipants := minParticipants,
            winnerPool := 0, adminPool := 0, appPool := 0,
            winnerPoolPercentage := winnerPct, adminPoolPercentage := adminPct,
            appPoolPercentage := appPct, startedAt := none, winnerId := none, winnerName := none,
            eliminationSequence := [], currentEliminationIndex := 0 } := by
        simp [createSpinWheel, h1, h2]
      rw [hred] at h
      injection h with h
      rw [← h]
      exact ⟨by simpa using h1, rfl, rfl⟩
    · simp [createSpinWheel, h1, h2] at h

/-- The compound inductive invariant on the wheel collection: ids are
unique (Mongo ObjectIds), at most one round is active, every completed
round has exactly one non-eliminated participant recorded as winner,
and every started round carries an elimination sequence that is a
permutation of its participant ids. -/
def GoodWheels (ws : List SpinWheel) : Prop :=
  (ws.map (fun w => w.id)).Nodup ∧
  ws.countP isActive ≤ 1 ∧
  (∀ w ∈ ws, w.status = .completed →
    ∃ p, w.participants.filter (fun q => !q.isEliminated) = [p] ∧
      w.winnerId = some p.userId) ∧
  (∀ w ∈ ws, (w.status = .inProgress ∨ w.status = .completed) →
    w.eliminationSequence.Perm (w.participants.map (fun p => p.userId)))

/-- The invariant of the engine state. -/
def GoodState (s : SystemState) : Prop :=
  GoodWheels s.wheels

/-- Writing back one updated round preserves the invariant provided the
update keeps the id, does not activate an inactive round, and satisfies
the completed-winner and permutation clauses itself. -/
theorem goodWheels_save {ws : List SpinWheel} {w w' : SpinWheel}
    (hg : GoodWheels ws) (hmem : w ∈ ws) (hid : w'.id = w.id)
    (hact : isActive w' = true → isActive w = true)
    (hcomp : w'.status = .completed →
      ∃ p, w'.participants.filter (fun q => !q.isEliminated) = [p] ∧
        w'.winnerId = some p.userId)
    (hperm : (w'.status = .inProgress ∨ w'.status = .completed) →
      w'.eliminationSequence.Perm (w'.participants.map (fun p => p.userId))) :
    GoodWheels (saveWheel ws w') := by
  obtain ⟨hnd, hcount, hc, hp⟩ := hg
  refine ⟨?_, ?_, ?_, ?_⟩
  · rw [saveWheel_map_id]; exact hnd
  · have hcnt := countP_saveWheel isActive ws w w' hnd hmem hid
    cases haw : isActive w <;> cases haw' : isActive w'
    · rw [haw, haw'] at hcnt; simp at hcnt; omega
    · cases (haw ▸ hact haw')
    · rw [haw, haw'] at hcnt; simp at hcnt; omega
    · rw [haw, haw'] at hcnt; simp at hcnt; omega
  · intro x hx hxc
    rcases mem_saveWheel hx with hxo | rfl
    · exact hc x hxo hxc
    · exact hcomp hxc
  · intro x hx hxs
    rcases mem_saveWheel hx with hxo | rfl
    · exact hp x hxo hxs
    · exact hperm hxs

/-- Every committed service operation preserves the invariant. -/
theorem step_good {s s' : SystemState} (hst : Step s s')
    (hg : GoodState s) : GoodState s' := by
  cases hst with
  | create newId adminId adminName entryFee maxParticipants winnerPct
      adminPct appPct minParticipants w hfresh hok =>
    obtain ⟨hany, hstat, hid⟩ := createSpinWheel_ok hok
    obtain ⟨hnd, hcount, hc, hp⟩ := hg
    refine ⟨?_, ?_, ?_, ?_⟩
    · rw [List.map_append, List.nodup_append]
      refine ⟨hnd, List.nodup_singleton _, ?_⟩
      intro a ha hb
      simp only [List.map_cons, List.map_nil, List.mem_singleton] at hb
      rcases List.mem_map.mp ha with ⟨y, hy, hya⟩
      exact hfresh y hy ((hya.trans hb).trans hid)
    · rw [List.countP_append]
      have hzero : s.wheels.countP isActive = 0 := by
        rw [List.countP_eq_zero]
        intro x hx
        have := List.any_eq_false.mp hany x hx
        simpa using this
      have hone : List.countP isActive [w] ≤ 1 := by
        simp [List.countP_cons]
        split <;> omega
      omega
    · intro x hx hxc
      rcases List.mem_append.mp hx with hxo | hxw
      · exact hc x hxo hxc
      · rw [List.mem_singleton.mp hxw] at hxc
        rw [hstat] at hxc
        cases hxc
    · intro x hx hxs
      rcases List.mem_append.mp hx with hxo | hxw
      · exact hp x hxo hxs
      · rw [List.mem_singleton.mp hxw] at hxs
        rw [hstat] at hxs
        rcases hxs with hxs | hxs <;> cases hxs
  | join wid uid uname w w' users' t hfind hok =>
    obtain ⟨hw, hw', hid⟩ := joinSpinWheel_ok hok
    refine goodWheels_save hg (findWheel_mem hfind) hid ?_ ?_ ?_
    · intro _; simp [isActive, hw]
    · intro hc; rw [hw'] at hc; cases hc
    · intro hs; rw [hw'] at hs; rcases hs with hs | hs <;> cases hs
  | start wid js now w w' hfind hok =>
    obtain ⟨hw, hmin, hw'⟩ := (startSpinWheel_ok_iff w js now w').mp hok
    subst hw'
    refine goodWheels_save hg (findWheel_mem hfind) (by rfl) ?_ ?_ ?_
    · intro _; simp [isActive, hw]
    · intro hc; cases hc
    · intro _
      exact shuffleArray_perm (w.participants.map (fun p => p.userId)) js
  | abort wid w w' users' ts hfind hok =>
    obtain ⟨hw, hr⟩ := (abortSpinWheel_ok_iff w s.users (w', users', ts)).mp hok
    have hw' : w' = { w with winnerPool := 0, adminPool := 0, appPool := 0,
                             status := .aborted } := congrArg Prod.fst hr
    subst hw'
    refine goodWheels_save hg (findWheel_mem hfind) (by rfl) ?_ ?_ ?_
    · intro ha; cases ha
    · intro hc; cases hc
    · intro hs; rcases hs with hs | hs <;> cases hs
  | eliminate wid w w' users' ts hfind hok =>
    obtain ⟨hw, hid, hseq, hmap, hidx, hrest⟩ := eliminateNext_ok hok
    refine goodWheels_save hg (findWheel_mem hfind) hid ?_ ?_ ?_
    · intro _; simp [isActive, hw]
    · intro hc
      rcases hrest with ⟨hs, -⟩ | ⟨-, hp⟩
      · rw [hs] at hc; cases hc
      · exact hp
    · intro hs
      have hperm := hg.2.2.2 w (findWheel_mem hfind) (Or.inl hw)
      rw [hseq, hmap]
      exact hperm

/-- All states reachable from a round-free initial state satisfy the
invariant. -/
theorem reachable_good {users : List User} {s : SystemState}
    (h : Reachable (initState users) s) : GoodState s := by
  induction h with
  | refl =>
    exact ⟨by simp [initState], by simp [initState],
      by intro w hw; simp [initState] at hw,
      by intro w hw; simp [initState] at hw⟩
  | tail hab hbc ih => exact step_good hbc ih

/-! Claim theorems. -/

/-- Waiting round with entry fee 1 and the default 70/20/10 split, used
to exhibit the fractional pool arithmetic of joinSpinWheel. -/
def c1Wheel : SpinWheel :=
  { id := 1, adminId := 0, adminName := "admin", status := .waiting,
    entryFee := 1, participants := [], maxParticipants := 10,
    minParticipants := 3, winnerPool := 0, adminPool := 0, appPool := 0,
    winnerPoolPercentage := 70, adminPoolPercentage := 20,
    appPoolPercentage := 10, startedAt := none, winnerId := none, winnerName := none,
    eliminationSequence := [], currentEliminationIndex := 0 }

/-- User collection for the entry fee 1 experiment. -/
def c1Users : List User := [{ id := 1, name := "u1", coins := 1000 }]

/-- C1: the claim asserts an integer floor split with the remainder
folded into winnerPool.  The code divides exactly: joining a round with
entryFee 1 and percentages 70/20/10 adds 7/10, 1/5 and 1/10 coins to
the pools instead of the claimed 1, 0 and 0, so the pools are not even
integers; the exact-sum identity itself holds only in rational
arithmetic.  This theorem evaluates the code at that failing input. -/
theorem c1_join_pool_split_not_integer :
    ∃ w' users' t, joinSpinWheel c1Wheel c1Users 1 "u1" = .ok (w', users', t) ∧
      w'.winnerPool = 7/10 ∧ w'.adminPool = 1/5 ∧ w'.appPool = 1/10 ∧
      w'.winnerPool + w'.adminPool + w'.appPool =
        c1Wheel.entryFee * (w'.participants.length : ℚ) ∧
      ¬ (∃ n : ℤ, w'.adminPool = (n : ℚ)) ∧
      w'.winnerPool ≠ 1 ∧ w'.adminPool ≠ 0 ∧ w'.appPool ≠ 0 := by
  refine ⟨_, _, _, rfl, by norm_num [c1Wheel], by norm_num [c1Wheel],
    by norm_num [c1Wheel], by norm_num [c1Wheel], ?_, by norm_num [c1Wheel],
    by norm_num [c1Wheel], by norm_num [c1Wheel]⟩
  rintro ⟨n, hn⟩
  have h5 : (0 : ℚ) + 1 * 20 / 100 = (n : ℚ) := hn
  have h6 : (5 : ℚ) * (n : ℚ) = 1 := by rw [← h5]; norm_num
  have h7 : (5 : ℤ) * n = 1 := by exact_mod_cast h6
  omega

/-- Waiting round with entry fee 100 whose only candidate joiner has
only 50 coins. -/
def c2Wheel : SpinWheel :=
  { id := 2, adminId := 0, adminName := "admin", status := .waiting,
    entryFee := 100, participants := [], maxParticipants := 10,
    minParticipants := 3, winnerPool := 0, adminPool := 0, appPool := 0,
    winnerPoolPercentage := 70, adminPoolPercentage := 20,
    appPoolPercentage := 10, startedAt := none, winnerId := none, winnerName := none,
    eliminationSequence := [], currentEliminationIndex := 0 }

/-- User collection with one account holding 50 coins. -/
def c2Users : List User := [{ id := 2, name := "poor", coins := 50 }]

/-- C2: with the other join preconditions satisfied (round waiting,
caller not the admin, not already joined, round not full, account
exists), join fails with the insufficient-funds error exactly when the
balance is below the entry fee; on success the balance drops by exactly
the entry fee and one participant snapshot with entryFeePaid equal to
the entry fee is appended, together with the entry-fee transaction
record, all inside the one transaction the Except result encodes. -/
theorem c2_join_insufficient_funds (w : SpinWheel) (users : List User)
    (uid : Nat) (uname : String) (user : User)
    (hst : w.status = .waiting) (hadm : ¬ w.adminId = uid)
    (hnj : w.participants.any (fun p => p.userId = uid) = false)
    (hnf : w.participants.length < w.maxParticipants)
    (hu : findUser users uid = some user) :
    ((∃ m, joinSpinWheel w users uid uname = .error (.insufficientFunds m)) ↔
      user.coins < w.entryFee) ∧
    (¬ user.coins < w.entryFee →
      ∃ w' users' t, joinSpinWheel w users uid uname = .ok (w', users', t) ∧
        findUser users' uid =
          some { user with coins := user.coins - w.entryFee } ∧
        w'.participants = w.participants ++
          [{ userId := uid, name := uname, entryFeePaid := w.entryFee,
             isEliminated := false, eliminationOrder := none }] ∧
        t.type = .entryFee ∧ t.amount = -w.entryFee ∧
        t.balanceBefore = user.coins ∧
        t.balanceAfter = user.coins - w.entryFee) := by
  have hnot4 : ¬ w.maxParticipants ≤ w.participants.length := by omega
  constructor
  · constructor
    · rintro ⟨m, hm⟩
      by_contra h5
      have hok := (joinSpinWheel_ok_iff w users uid uname _).mpr
        ⟨hst, hadm, by simp [hnj], hnot4, user, hu, h5, rfl⟩
      rw [hok] at hm
      cases hm
    · intro h5
      exact ⟨"Insufficient coins",
        by simp [joinSpinWheel, hst, hadm, hnj, hnot4, hu, h5]⟩
  · intro h5
    refine ⟨_, _, _, (joinSpinWheel_ok_iff w users uid uname _).mpr
      ⟨hst, hadm, by simp [hnj], hnot4, user, hu, h5, rfl⟩, ?_, rfl, rfl,
      rfl, rfl, rfl⟩
    exact findUser_saveUser_self _ hu (by have h9 := findUser_id hu; exact h9)

/-- Witness for C2: the 50-coin account can satisfy every other
precondition yet joining the fee-100 round fails with the
insufficient-funds error. -/
theorem c2_join_insufficient_funds_witness :
    ∃ m, joinSpinWheel c2Wheel c2Users 2 "poor" =
      .error (.insufficientFunds m) :=
  ((c2_join_insufficient_funds c2Wheel c2Users 2 "poor"
      { id := 2, name := "poor", coins := 50 } rfl (by decide) (by decide)
      (by decide) (by decide)).1).mpr (by decide)

/-- Waiting round with entry fee 100, the 70/20/10 split and room for
five players (scenario S1 of the spec). -/
def c3Wheel : SpinWheel :=
  { id := 5, adminId := 0, adminName := "admin", status := .waiting,
    entryFee := 100, participants := [], maxParticipants := 5,
    minParticipants := 3, winnerPool := 0, adminPool := 0, appPool := 0,
    winnerPoolPercentage := 70, adminPoolPercentage := 20,
    appPoolPercentage := 10, startedAt := none, winnerId := none, winnerName := none,
    eliminationSequence := [], currentEliminationIndex := 0 }

/-- Admin plus three users with 1000 coins each. -/
def c3Users : List User :=
  [{ id := 0, name := "admin", coins := 0 },
   { id := 1, name := "u1", coins := 1000 },
   { id := 2, name := "u2", coins := 1000 },
   { id := 3, name := "u3", coins := 1000 }]

/-- Scenario S1: three joins, a start with all PRNG draws 0 (elimination
sequence [2, 3, 1]) and two elimination ticks, the second of which
completes the round. -/
def c3Scenario : Except ServiceError (SpinWheel × List User × List Txn) := do
  let r1 ← joinSpinWheel c3Wheel c3Users 1 "u1"
  let r2 ← joinSpinWheel r1.1 r1.2.1 2 "u2"
  let r3 ← joinSpinWheel r2.1 r2.2.1 3 "u3"
  let w4 ← startSpinWheel r3.1 (fun _ => 0) 0
  let r5 ← eliminateNext w4 r3.2.1
  eliminateNext r5.1 r5.2.1

/-- C3: completeSpinWheel credits the winner by exactly winnerPool with
a prize-win record, credits the admin by exactly adminPool with an
admin-commission record, and appends an app-fee record for appPool with
balanceBefore and balanceAfter both zero, touching no account for it;
in scenario S1 (fee 100, split 70/20/10, three joined players) the
winner receives 210, the admin receives 60 and the recorded app fee
is 30. -/
theorem c3_complete_payout :
    (∀ (w : SpinWheel) (users : List User) (w' : SpinWheel)
       (users' : List User) (ts : List Txn) (winner : Participant)
       (wu au : User),
       completeSpinWheel w users = .ok (w', users', ts) →
       w.participants.find? (fun q => !q.isEliminated) = some winner →
       findUser users winner.userId = some wu →
       ¬ winner.userId = w.adminId →
       findUser users w.adminId = some au →
       findUser users' winner.userId =
         some { wu with coins := wu.coins + w.winnerPool } ∧
       findUser users' w.adminId =
         some { au with coins := au.coins + w.adminPool } ∧
       (∃ t ∈ ts, t.type = .prizeWin ∧ t.amount = w.winnerPool ∧
         t.userId = winner.userId) ∧
       (∃ t ∈ ts, t.type = .adminCommission ∧ t.amount = w.adminPool ∧
         t.userId = w.adminId) ∧
       (∃ t ∈ ts, t.type = .appFee ∧ t.amount = w.appPool ∧
         t.balanceBefore = 0 ∧ t.balanceAfter = 0)) ∧
    (∃ w' users' ts, c3Scenario = .ok (w', users', ts) ∧
       w'.status = .completed ∧ w'.winnerPool = 210 ∧ w'.adminPool = 60 ∧
       w'.appPool = 30 ∧ w'.winnerId = some 1 ∧
       findUser users' 1 = some { id := 1, name := "u1", coins := 1110 } ∧
       findUser users' 0 = some { id := 0, name := "admin", coins := 60 } ∧
       (∃ t ∈ ts, t.type = .appFee ∧ t.amount = 30 ∧
         t.balanceBefore = 0 ∧ t.balanceAfter = 0)) := by
  constructor
  · intro w users w' users' ts winner wu au hok hfw hwu hne hau
    have hne2 : ({ wu with coins := wu.coins + w.winnerPool } : User).id ≠
        w.adminId := by
      have h9 : wu.id = winner.userId := findUser_id hwu
      show wu.id ≠ w.adminId
      rw [h9]
      exact hne
    have hau2 : findUser
        (saveUser users { wu with coins := wu.coins + w.winnerPool })
        w.adminId = some au := by
      rw [findUser_saveUser_ne users _ hne2]
      exact hau
    have hred : completeSpinWheel w users = .ok
        ({ w with winnerId := some winner.userId,
                  winnerName := some winner.name, status := .completed },
         saveUser (saveUser users { wu with coins := wu.coins + w.winnerPool })
           { au with coins := au.coins + w.adminPool },
         [{ userId := winner.userId, name := winner.name, spinWheelId := w.id,
            type := .prizeWin, amount := w.winnerPool,
            balanceBefore := wu.coins,
            balanceAfter := wu.coins + w.winnerPool },
          { userId := w.adminId, name := w.adminName, spinWheelId := w.id,
            type := .adminCommission, amount := w.adminPool,
            balanceBefore := au.coins,
            balanceAfter := au.coins + w.adminPool },
          { userId := w.adminId, name := "SYSTEM", spinWheelId := w.id,
            type := .appFee, amount := w.appPool,
            balanceBefore := 0, balanceAfter := 0 }]) := by
      simp [completeSpinWheel, hfw, hwu, hau2]
    rw [hred] at hok
    simp only [Except.ok.injEq, Prod.mk.injEq] at hok
    obtain ⟨hw', hus', hts⟩ := hok
    subst hw'
    subst hus'
    subst hts
    have hne3 : ({ au with coins := au.coins + w.adminPool } : User).id ≠
        winner.userId := by
      have hA : au.id = w.adminId := findUser_id hau
      show au.id ≠ winner.userId
      rw [hA]
      intro hh
      exact hne hh.symm
    refine ⟨?_, ?_, ?_, ?_, ?_⟩
    · rw [findUser_saveUser_ne _ _ hne3]
      exact findUser_saveUser_self _ hwu
        (by have h9 := findUser_id hwu; exact h9)
    · exact findUser_saveUser_self _ hau2
        (by have h9 := findUser_id hau; exact h9)
    · exact ⟨_, List.mem_cons_self _ _, rfl, rfl, rfl⟩
    · exact ⟨_, List.mem_cons_of_mem _ (List.mem_cons_self _ _),
        rfl, rfl, rfl⟩
    · exact ⟨_, List.mem_cons_of_mem _ (List.mem_cons_of_mem _
        (List.mem_cons_self _ _)), rfl, rfl, rfl, rfl⟩
  · refine ⟨_, _, _, rfl, rfl, by norm_num [c3Wheel], by norm_num [c3Wheel],
      by norm_num [c3Wheel], rfl, ?_, ?_, ?_⟩
    · show some _ = some _
      norm_num [c3Wheel]
    · show some _ = some _
      norm_num [c3Wheel]
    · exact ⟨_, List.mem_cons_of_mem _ (List.mem_cons_of_mem _
        (List.mem_cons_self _ _)), rfl, by norm_num [c3Wheel], rfl, rfl⟩

/-- Waiting round holding one paid participant, used to witness the
abort contract. -/
def c4Wheel : SpinWheel :=
  { id := 4, adminId := 0, adminName := "admin", status := .waiting,
    entryFee := 50,
    participants := [{ userId := 1, name := "u1", entryFeePaid := 50,
                       isEliminated := false, eliminationOrder := none }],
    maxParticipants := 3, minParticipants := 3, winnerPool := 35,
    adminPool := 10, appPool := 5, winnerPoolPercentage := 70,
    adminPoolPercentage := 20, appPoolPercentage := 10, startedAt := none,
    winnerId := none, winnerName := none, eliminationSequence := [],
    currentEliminationIndex := 0 }

/-- User collection matching c4Wheel. -/
def c4Users : List User :=
  [{ id := 0, name := "admin", coins := 0 },
   { id := 1, name := "u1", coins := 950 }]

/-- C4: abort succeeds only on a waiting round; on success every
participant (distinct ids, user document present) is credited its
entryFeePaid with a refund record, the pools are zeroed, the status
becomes aborted, and invoking abort again on the result fails with the
invalid-state SpinWheelError and commits nothing. -/
theorem c4_abort_refunds (w : SpinWheel) (users : List User)
    (hnodup : (w.participants.map (fun p => p.userId)).Nodup)
    (hex : ∀ p ∈ w.participants, (findUser users p.userId).isSome) :
    (¬ w.status = .waiting →
      abortSpinWheel w users =
        .error (.spinWheelError "Can only abort waiting spin wheels")) ∧
    (w.status = .waiting →
      ∃ w' users' ts, abortSpinWheel w users = .ok (w', users', ts) ∧
        w'.status = .aborted ∧
        w'.winnerPool = 0 ∧ w'.adminPool = 0 ∧ w'.appPool = 0 ∧
        (∀ p ∈ w.participants, ∀ u, findUser users p.userId = some u →
          findUser users' p.userId =
            some { u with coins := u.coins + p.entryFeePaid }) ∧
        (∀ p ∈ w.participants, ∃ t ∈ ts, t.userId = p.userId ∧
          t.type = .refund ∧ t.amount = p.entryFeePaid) ∧
        abortSpinWheel w' users' =
          .error (.spinWheelError "Can only abort waiting spin wheels")) := by
  constructor
  · intro h
    simp [abortSpinWheel, h]
  · intro h
    refine ⟨_, _, _, (abortSpinWheel_ok_iff w users _).mpr ⟨h, rfl⟩,
      rfl, rfl, rfl, rfl, ?_, ?_, ?_⟩
    · intro p hp u hu
      exact refund_findUser_mem w.participants users [] p u hnodup hp hu
    · intro p hp
      rcases refund_txn_exists w.participants users [] p hp hex with
        ⟨t, ht, h1, h2, h3, -⟩
      exact ⟨t, ht, h1, h2, h3⟩
    · simp [abortSpinWheel]

/-- Witness for C4 on the concrete one-participant round. -/
theorem c4_abort_refunds_witness :
    ∃ w' users' ts, abortSpinWheel c4Wheel c4Users = .ok (w', users', ts) ∧
      w'.status = .aborted ∧
      w'.winnerPool = 0 ∧ w'.adminPool = 0 ∧ w'.appPool = 0 ∧
      (∀ p ∈ c4Wheel.participants, ∀ u, findUser c4Users p.userId = some u →
        findUser users' p.userId =
          some { u with coins := u.coins + p.entryFeePaid }) ∧
      (∀ p ∈ c4Wheel.participants, ∃ t ∈ ts, t.userId = p.userId ∧
        t.type = .refund ∧ t.amount = p.entryFeePaid) ∧
      abortSpinWheel w' users' =
        .error (.spinWheelError "Can only abort waiting spin wheels") :=
  (c4_abort_refunds c4Wheel c4Users (by decide) (by decide)).2 rfl

/-- C5: an elimination step that leaves exactly one non-eliminated
participant completes the round in that same call (the final sequence
entry is never drawn), while still advancing the elimination index. -/
theorem c5_completes_when_one_remains (w : SpinWheel) (users : List User)
    (w' : SpinWheel) (users' : List User) (ts : List Txn)
    (hok : eliminateNext w users = .ok (w', users', ts))
    (hone : countRemaining w'.participants = 1) :
    w'.status = .completed ∧
    w'.currentEliminationIndex = w.currentEliminationIndex + 1 := by
  obtain ⟨-, -, -, -, hidx, hrest⟩ := eliminateNext_ok hok
  rcases hrest with ⟨-, hne⟩ | ⟨hc, -⟩
  · exact absurd hone hne
  · exact ⟨hc, hidx⟩

/-- Round in progress with two survivors and one pending draw, used to
witness the completion rule. -/
def c5Wheel : SpinWheel :=
  { id := 6, adminId := 0, adminName := "admin", status := .inProgress,
    entryFee := 10,
    participants :=
      [{ userId := 1, name := "u1", entryFeePaid := 10,
         isEliminated := false, eliminationOrder := none },
       { userId := 2, name := "u2", entryFeePaid := 10,
         isEliminated := false, eliminationOrder := none }],
    maxParticipants := 5, minParticipants := 2, winnerPool := 14,
    adminPool := 4, appPool := 2, winnerPoolPercentage := 70,
    adminPoolPercentage := 20, appPoolPercentage := 10, startedAt := some 0,
    winnerId := none, winnerName := none, eliminationSequence := [2, 1],
    currentEliminationIndex := 0 }

/-- User collection matching c5Wheel. -/
def c5Users : List User :=
  [{ id := 0, name := "admin", coins := 0 },
   { id := 1, name := "u1", coins := 990 },
   { id := 2, name := "u2", coins := 990 }]

/-- Witness for C5: eliminating the first drawn id leaves one survivor
and the very same call completes the round. -/
theorem c5_completes_when_one_remains_witness :
    ∃ w' users' ts, eliminateNext c5Wheel c5Users = .ok (w', users', ts) ∧
      countRemaining w'.participants = 1 ∧ w'.status = .completed ∧
      w'.currentEliminationIndex = 1 := by
  refine ⟨_, _, _, rfl, by decide, ?_⟩
  exact c5_completes_when_one_remains c5Wheel c5Users _ _ _ rfl (by decide)

/-- Extracts the payload of a successful service call, with an explicit
fallback for the error case; used to name the intermediate documents of
concrete runs. -/
def okD {α : Type} (d : α) (x : Except ServiceError α) : α :=
  match x with
  | .ok a => a
  | .error _ => d

/-- Placeholder transaction for okD fallbacks. -/
def emptyTxn : Txn :=
  { userId := 0, name := "", spinWheelId := 0, type := .entryFee,
    amount := 0, balanceBefore := 0, balanceAfter := 0 }

/-- First join of scenario S1 run at system level. -/
def aR1 : SpinWheel × List User × Txn :=
  okD (c3Wheel, c3Users, emptyTxn) (joinSpinWheel c3Wheel c3Users 1 "u1")

/-- Second join of scenario S1. -/
def aR2 : SpinWheel × List User × Txn :=
  okD (c3Wheel, c3Users, emptyTxn) (joinSpinWheel aR1.1 aR1.2.1 2 "u2")

/-- Third join of scenario S1. -/
def aR3 : SpinWheel × List User × Txn :=
  okD (c3Wheel, c3Users, emptyTxn) (joinSpinWheel aR2.1 aR2.2.1 3 "u3")

/-- Start of scenario S1 with all PRNG draws 0. -/
def aW4 : SpinWheel := okD c3Wheel (startSpinWheel aR3.1 (fun _ => 0) 0)

/-- First elimination tick of scenario S1. -/
def aR5 : SpinWheel × List User × List Txn :=
  okD (c3Wheel, c3Users, []) (eliminateNext aW4 aR3.2.1)

/-- Second elimination tick of scenario S1; it completes the round. -/
def aR6 : SpinWheel × List User × List Txn :=
  okD (c3Wheel, c3Users, []) (eliminateNext aR5.1 aR5.2.1)

/-- System states along the committed run of scenario S1. -/
def aS1 : SystemState := { wheels := [c3Wheel], users := c3Users, txns := [] }

/-- State after the first join. -/
def aS2 : SystemState :=
  { wheels := saveWheel aS1.wheels aR1.1, users := aR1.2.1,
    txns := aS1.txns ++ [aR1.2.2] }

/-- State after the second join. -/
def aS3 : SystemState :=
  { wheels := saveWheel aS2.wheels aR2.1, users := aR2.2.1,
    txns := aS2.txns ++ [aR2.2.2] }

/-- State after the third join. -/
def aS4 : SystemState :=
  { wheels := saveWheel aS3.wheels aR3.1, users := aR3.2.1,
    txns := aS3.txns ++ [aR3.2.2] }

/-- State after the start. -/
def aS5 : SystemState := { aS4 with wheels := saveWheel aS4.wheels aW4 }

/-- State after the first elimination. -/
def aS6 : SystemState :=
  { wheels := saveWheel aS5.wheels aR5.1, users := aR5.2.1,
    txns := aS5.txns ++ aR5.2.2 }

/-- State after the completing elimination. -/
def aS7 : SystemState :=
  { wheels := saveWheel aS6.wheels aR6.1, users := aR6.2.1,
    txns := aS6.txns ++ aR6.2.2 }

/-- The committed creation step of scenario S1. -/
theorem aStep1 : Step (initState c3Users) aS1 := by
  have h := Step.create (initState c3Users) 5 0 "admin" 100 5 70 20 10 3
    c3Wheel (by intro x hx; cases hx)
    (by norm_num [createSpinWheel, initState, c3Wheel])
  exact h

/-- The whole scenario S1 run is reachable. -/
theorem aReachable : Reachable (initState c3Users) aS7 := by
  refine Relation.ReflTransGen.tail (Relation.ReflTransGen.tail
    (Relation.ReflTransGen.tail (Relation.ReflTransGen.tail
      (Relation.ReflTransGen.tail (Relation.ReflTransGen.tail
        (Relation.ReflTransGen.single aStep1)
        (Step.join aS1 5 1 "u1" c3Wheel aR1.1 aR1.2.1 aR1.2.2 rfl rfl))
      (Step.join aS2 5 2 "u2" aR1.1 aR2.1 aR2.2.1 aR2.2.2 rfl rfl))
    (Step.join aS3 5 3 "u3" aR2.1 aR3.1 aR3.2.1 aR3.2.2 rfl rfl))
    (Step.start aS4 5 (fun _ => 0) 0 aR3.1 aW4 rfl rfl))
    (Step.eliminate aS5 5 aW4 aR5.1 aR5.2.1 aR5.2.2 rfl rfl))
    (Step.eliminate aS6 5 aR5.1 aR6.1 aR6.2.1 aR6.2.2 rfl rfl)

/-- C6: in every reachable state, a completed round has exactly one
non-eliminated participant and winnerId is that participant. -/
theorem c6_completed_unique_winner (users : List User) (s : SystemState)
    (h : Reachable (initState users) s) :
    ∀ w ∈ s.wheels, w.status = .completed →
      ∃ p, w.participants.filter (fun q => !q.isEliminated) = [p] ∧
        w.winnerId = some p.userId :=
  (reachable_good h).2.2.1

/-- Witness for C6 on the reachable end state of scenario S1, which
contains a completed round. -/
theorem c6_completed_unique_winner_witness :
    (∃ w ∈ aS7.wheels, w.status = .completed) ∧
    ∀ w ∈ aS7.wheels, w.status = .completed →
      ∃ p, w.participants.filter (fun q => !q.isEliminated) = [p] ∧
        w.winnerId = some p.userId :=
  ⟨⟨aR6.1, by exact List.mem_cons_self _ _, by decide⟩,
   c6_completed_unique_winner c3Users aS7 aReachable⟩

/-- C7: round creation is refused with the ConflictError whenever an
active round exists, and consequently every reachable state holds at
most one active round. -/
theorem c7_singleton_active_round :
    (∀ (s : SystemState) (newId adminId : Nat) (adminName : String)
       (entryFee : ℚ) (maxParticipants : Nat) (wPct aPct pPct : ℚ)
       (minParticipants : Nat),
       s.wheels.any isActive = true →
       createSpinWheel s newId adminId adminName entryFee maxParticipants
         wPct aPct pPct minParticipants =
         .error (.conflict "There is already an active spin wheel")) ∧
    (∀ (users : List User) (s : SystemState),
       Reachable (initState users) s → s.wheels.countP isActive ≤ 1) := by
  constructor
  · intro s newId adminId adminName entryFee maxParticipants wPct aPct pPct
      minParticipants h
    simp [createSpinWheel, h]
  · intro users s h
    exact (reachable_good h).2.1

/-- Witness for C7: the conflict refusal fires on the populated state
aS1, and the reachable end state of scenario S1 satisfies the bound. -/
theorem c7_singleton_active_round_witness :
    createSpinWheel aS1 9 0 "admin" 10 10 70 20 10 3 =
      .error (.conflict "There is already an active spin wheel") ∧
    aS7.wheels.countP isActive ≤ 1 :=
  ⟨c7_singleton_active_round.1 aS1 9 0 "admin" 10 10 70 20 10 3 (by decide),
   c7_singleton_active_round.2 c3Users aS7 aReachable⟩

/-- C8 (amended): start requires a waiting round with at least
minParticipants participants and fails with a SpinWheelError otherwise
(an error commits nothing); on success it sets inProgress status, a
zero elimination index, startedAt to the current instant, and an
elimination sequence that is a permutation of the participant ids; that
permutation property holds in every reachable state for rounds that are
in progress or completed (aborted rounds keep an empty sequence while
retaining their participants, so the original whenever-not-waiting
phrasing fails). -/
theorem c8_start_contract (w : SpinWheel) (js : Nat → Nat) (now : Nat) :
    ((¬ w.status = .waiting ∨ w.participants.length < w.minParticipants) →
      ∃ m, startSpinWheel w js now = .error (.spinWheelError m)) ∧
    (w.status = .waiting → w.minParticipants ≤ w.participants.length →
      ∃ w', startSpinWheel w js now = .ok w' ∧
        w'.status = .inProgress ∧ w'.currentEliminationIndex = 0 ∧
        w'.startedAt = some now ∧
        w'.participants = w.participants ∧
        w'.eliminationSequence.Perm
          (w.participants.map (fun p => p.userId))) ∧
    (∀ (users : List User) (s : SystemState),
      Reachable (initState users) s →
      ∀ x ∈ s.wheels, (x.status = .inProgress ∨ x.status = .completed) →
        x.eliminationSequence.Perm
          (x.participants.map (fun p => p.userId))) := by
  refine ⟨?_, ?_, ?_⟩
  · rintro (h | h)
    · exact ⟨"Spin wheel is not in waiting state", by simp [startSpinWheel, h]⟩
    · by_cases h1 : w.status = .waiting
      · exact ⟨"Minimum participants required",
          by simp [startSpinWheel, h1, h]⟩
      · exact ⟨"Spin wheel is not in waiting state",
          by simp [startSpinWheel, h1]⟩
  · intro h1 h2
    refine ⟨_, (startSpinWheel_ok_iff w js now _).mpr ⟨h1, by omega, rfl⟩,
      rfl, rfl, rfl, rfl, ?_⟩
    exact shuffleArray_perm _ js
  · intro users s h x hx hs
    exact (reachable_good h).2.2.2 x hx hs

/-- Witness for C8 on the three-player round of scenario S1. -/
theorem c8_start_contract_witness :
    ∃ w', startSpinWheel aR3.1 (fun _ => 0) 0 = .ok w' ∧
      w'.status = .inProgress ∧ w'.currentEliminationIndex = 0 ∧
      w'.startedAt = some 0 ∧
      w'.participants = aR3.1.participants ∧
      w'.eliminationSequence.Perm
        (aR3.1.participants.map (fun p => p.userId)) :=
  (c8_start_contract aR3.1 (fun _ => 0) 0).2.1 (by decide) (by decide)

/-- Admin and one candidate participant for the aborted-round
counterexample. -/
def bUsers : List User :=
  [{ id := 0, name := "admin", coins := 0 },
   { id := 1, name := "u1", coins := 100 }]

/-- Fresh waiting round for the aborted-round counterexample. -/
def bW0 : SpinWheel :=
  { id := 7, adminId := 0, adminName := "admin", status := .waiting,
    entryFee := 10, participants := [], maxParticipants := 10,
    minParticipants := 3, winnerPool := 0, adminPool := 0, appPool := 0,
    winnerPoolPercentage := 70, adminPoolPercentage := 20,
    appPoolPercentage := 10, startedAt := none, winnerId := none, winnerName := none,
    eliminationSequence := [], currentEliminationIndex := 0 }

/-- One user joins the round. -/
def bR1 : SpinWheel × List User × Txn :=
  okD (bW0, bUsers, emptyTxn) (joinSpinWheel bW0 bUsers 1 "u1")

/-- The round is aborted (as the scheduler does below minParticipants). -/
def bR2 : SpinWheel × List User × List Txn :=
  okD (bW0, bUsers, []) (abortSpinWheel bR1.1 bR1.2.1)

/-- State after creating the round. -/
def bS1 : SystemState := { wheels := [bW0], users := bUsers, txns := [] }

/-- State after the join. -/
def bS2 : SystemState :=
  { wheels := saveWheel bS1.wheels bR1.1, users := bR1.2.1,
    txns := bS1.txns ++ [bR1.2.2] }

/-- State after the abort. -/
def bS3 : SystemState :=
  { wheels := saveWheel bS2.wheels bR2.1, users := bR2.2.1,
    txns := bS2.txns ++ bR2.2.2 }

/-- The aborted-round state is reachable. -/
theorem bReachable : Reachable (initState bUsers) bS3 := by
  refine Relation.ReflTransGen.tail (Relation.ReflTransGen.tail
    (Relation.ReflTransGen.single ?_)
    (Step.join bS1 7 1 "u1" bW0 bR1.1 bR1.2.1 bR1.2.2 rfl rfl))
    (Step.abort bS2 7 bR1.1 bR2.1 bR2.2.1 bR2.2.2 rfl rfl)
  have h := Step.create (initState bUsers) 7 0 "admin" 10 10 70 20 10 3
    bW0 (by intro x hx; cases hx)
    (by norm_num [createSpinWheel, initState, bW0])
  exact h

/-- Counterexample for C8 as stated: the claim says eliminationOrder is
a permutation of the participant ids whenever the status is not
Waiting, but a reachable aborted round keeps its participant while its
elimination sequence is empty. -/
theorem c8_counterexample :
    Reachable (initState bUsers) bS3 ∧
    ∃ x ∈ bS3.wheels, ¬ x.status = .waiting ∧
      ¬ x.eliminationSequence.Perm (x.participants.map (fun p => p.userId)) :=
  ⟨bReachable, ⟨bR2.1, by exact List.mem_cons_self _ _, by decide, by decide⟩⟩

/-- C9: canUserJoin is true exactly when the round exists in waiting
status, the caller is not the admin, has not joined, and the round is
not full; it takes no account of balances, and for the 50-coin account
of c2Users it returns true although the join itself fails with the
insufficient-funds error. -/
theorem c9_canUserJoin_spec :
    (∀ (w : SpinWheel) (uid : Nat),
       canUserJoin (some w) uid = true ↔
         (w.status = .waiting ∧ ¬ w.adminId = uid ∧
          w.participants.any (fun p => p.userId = uid) = false ∧
          w.participants.length < w.maxParticipants)) ∧
    (∀ uid : Nat, canUserJoin none uid = false) ∧
    (canUserJoin (some c2Wheel) 2 = true ∧
     ∃ m, joinSpinWheel c2Wheel c2Users 2 "poor" =
       .error (.insufficientFunds m)) := by
  refine ⟨?_, ?_, ?_, ?_⟩
  · intro w uid
    by_cases h1 : w.status = .waiting
    · by_cases h2 : w.adminId = uid
      · simp [canUserJoin, h1, h2]
      · cases h3 : w.participants.any (fun p => p.userId = uid) with
        | true => simp [canUserJoin, h1, h2, h3]
        | false =>
          by_cases h4 : w.maxParticipants ≤ w.participants.length
          · simp only [canUserJoin, h1, h2, h3, h4]
            simp [h1, h2, h3]
            omega
          · simp only [canUserJoin, h1, h2, h3, h4]
            simp [h1, h2, h3]
            omega
    · simp [canUserJoin, h1]
  · intro uid
    rfl
  · decide
  · exact ⟨"Insufficient coins", rfl⟩

/-- Round in progress whose next drawn id 99 matches no participant. -/
def c10Wheel : SpinWheel :=
  { id := 8, adminId := 0, adminName := "admin", status := .inProgress,
    entryFee := 10,
    participants :=
      [{ userId := 1, name := "u1", entryFeePaid := 10,
         isEliminated := false, eliminationOrder := none },
       { userId := 2, name := "u2", entryFeePaid := 10,
         isEliminated := false, eliminationOrder := none },
       { userId := 3, name := "u3", entryFeePaid := 10,
         isEliminated := false, eliminationOrder := none }],
    maxParticipants := 5, minParticipants := 3, winnerPool := 21,
    adminPool := 6, appPool := 3, winnerPoolPercentage := 70,
    adminPoolPercentage := 20, appPoolPercentage := 10, startedAt := some 0,
    winnerId := none, winnerName := none, eliminationSequence := [99, 1, 2],
    currentEliminationIndex := 0 }

/-- C10: every successful eliminateNext call increments the elimination
index by exactly one, and the participant marking is conditional on the
drawn id matching: with drawn id 99 matching nobody, the participants
are unchanged and the count of eliminated participants stays below the
advanced index. -/
theorem c10_index_increment_unconditional :
    (∀ (w : SpinWheel) (users : List User) (w' : SpinWheel)
       (users' : List User) (ts : List Txn),
       eliminateNext w users = .ok (w', users', ts) →
       w'.currentEliminationIndex = w.currentEliminationIndex + 1) ∧
    (∃ w' users' ts, eliminateNext c10Wheel [] = .ok (w', users', ts) ∧
       w'.participants = c10Wheel.participants ∧
       (w'.participants.filter (fun p => p.isEliminated)).length <
         w'.currentEliminationIndex) := by
  constructor
  · intro w users w' users' ts hok
    exact (eliminateNext_ok hok).2.2.2.2.1
  · exact ⟨_, _, _, rfl, by decide, by decide⟩

end SMInteractive
